import Mathlib

/-!
Shallow embedding of the OpenBSD current-executable-directory resolver
(src/main.cpp): the verifier lambda is_exe and the resolver
GetExecutableDirectory, with the kernel introspection results, the
filesystem and the environment variables abstracted into an Env record.
The embedding threads an explicit state (the C errno cell plus two
instrumentation traces: the candidate strings handed to the verifier and
the paths handed to stat), so that error-handling and control-flow claims
are statable.  Pure value projections (suffix V) are related to the
threaded versions by lemmas.
-/

set_option autoImplicit false

namespace ExeDir

/-- Mode bit for user-execute permission, S_IXUSR (octal 100). -/
def S_IXUSR : Nat := 64

/-- Mode bit marking a regular file, S_IFREG (octal 100000). -/
def S_IFREG : Nat := 32768

/-- Sentinel fd number marking the text-segment entry in kinfo_file records. -/
def KERN_FILE_TEXT : Int := -1

/-- Result of a successful stat call: mode bits and the (device, inode) pair. -/
structure StatRec where
  st_mode : Nat
  st_dev : Nat
  st_ino : Nat
deriving DecidableEq, Repr

/-- One kinfo_file record as returned by kvm_getfiles. -/
structure KFile where
  fd_fd : Int
  va_fsid : Nat
  va_fileid : Nat
  p_comm : String
deriving DecidableEq, Repr

/-- The external world fixed during one resolution call: kernel introspection
results, the filesystem, and the environment variables.  Failing primitives
carry the errno value they would leave behind. -/
structure Env where
  kvmOk : Bool
  kvmErr : Nat
  argv : Option (List String)
  argvErr : Nat
  files : Option (List KFile)
  filesErr : Nat
  stat : String → Option StatRec
  statErr : String → Nat
  realpath : String → Option String
  realpathErr : String → Nat
  getenvStr : String → String
  cwd : Option String
  cwdErr : Nat

/-- Threaded call state: the errno cell plus the two instrumentation traces. -/
structure RSt where
  errno : Nat
  calls : List String
  checks : List String
deriving DecidableEq, Repr

/-- Index of the first occurrence of a character in a character list,
as std::string::find. -/
def firstIdx (c : Char) : List Char → Option Nat
  | [] => none
  | x :: xs => if x = c then some 0 else (firstIdx c xs).map (· + 1)

/-- Index of the last occurrence of a character in a character list,
as std::string::find_last_of with a single search character. -/
def lastIdx (c : Char) : List Char → Option Nat
  | [] => none
  | x :: xs =>
    match lastIdx c xs with
    | some i => some (i + 1)
    | none => if x = c then some 0 else none

/-- std::string::find for a single character; none models npos. -/
def find_char (s : String) (c : Char) : Option Nat := firstIdx c s.toList

/-- std::string::find_last_of for a single character; none models npos. -/
def find_last_of (s : String) (c : Char) : Option Nat := lastIdx c s.toList

/-- std::string::substr(0, n): the first n characters. -/
def substrTo (s : String) (n : Nat) : String := String.mk (s.toList.take n)

/-- Comparison a > b on std::string::find results, where npos (modelled as
none) compares greater than every real index. -/
def posGt : Option Nat → Option Nat → Bool
  | none, none => false
  | none, some _ => true
  | some _, none => false
  | some a, some b => decide (b < a)

/-- Characters before the first colon, paired with what remains after that
colon (everything is consumed when there is no colon). -/
def breakColon : List Char → List Char × List Char
  | [] => ([], [])
  | x :: xs =>
    if x = ':' then ([], xs)
    else (x :: (breakColon xs).1, (breakColon xs).2)

/-- Fuelled worker for the getline loop: while the stream is non-empty, read
one colon-delimited field and continue on the rest.  The fuel only serves
structural recursion; it is never exhausted when it starts at the stream
length, since breakColon consumes at least one character. -/
def getlineSplitF : Nat → List Char → List String
  | _, [] => []
  | 0, _ :: _ => []
  | fuel + 1, x :: xs =>
    String.mk (breakColon (x :: xs)).1 ::
      getlineSplitF fuel (breakColon (x :: xs)).2

/-- Field list produced by repeated std::getline with delimiter colon on a
stringstream holding the given characters. -/
def getlineSplit (l : List Char) : List String := getlineSplitF l.length l

/-- Scan of the kinfo_file array inside is_exe: the loop advances only while
fd_fd is negative and handles the first record equal to KERN_FILE_TEXT. -/
def findText : List KFile → Option KFile
  | [] => none
  | k :: rest =>
    if k.fd_fd < 0 then
      if k.fd_fd = KERN_FILE_TEXT then some k else findText rest
    else none

/-- One filesystem verification attempt on a path, with state threading: the
stat call, the mode-bit tests, realpath, and the (device, inode) comparison
against the text-segment record.  Returns the realpath output on success. -/
def checkCandE (env : Env) (k : KFile) (p : String) (st : RSt) :
    Option String × RSt :=
  match env.stat p with
  | none => (none, { st with errno := env.statErr p, checks := st.checks ++ [p] })
  | some s =>
    if s.st_mode &&& S_IXUSR ≠ 0 ∧ s.st_mode &&& S_IFREG ≠ 0 then
      match env.realpath p with
      | none =>
        (none, { st with errno := env.realpathErr p, checks := st.checks ++ [p] })
      | some buf =>
        if s.st_dev = k.va_fsid ∧ s.st_ino = k.va_fileid then
          (some buf, { st with checks := st.checks ++ [p] })
        else (none, { st with checks := st.checks ++ [p] })
    else (none, { st with checks := st.checks ++ [p] })

/-- Pure value of one filesystem verification attempt. -/
def checkCandV (env : Env) (k : KFile) (p : String) : Option String :=
  match env.stat p with
  | none => none
  | some s =>
    if s.st_mode &&& S_IXUSR ≠ 0 ∧ s.st_mode &&& S_IFREG ≠ 0 then
      match env.realpath p with
      | none => none
      | some buf =>
        if s.st_dev = k.va_fsid ∧ s.st_ino = k.va_fileid then some buf else none
    else none

/-- The verifier lambda is_exe with state threading: open kvm, fetch the file
records, scan the leading negative-fd run for the text-segment record, check
the candidate, and on failure retry once with the final path component
replaced by the kernel-reported process name. -/
def is_exeE (env : Env) (exe : String) (st : RSt) : String × RSt :=
  if env.kvmOk = false then
    ("", { st with errno := env.kvmErr, calls := st.calls ++ [exe] })
  else
    match env.files with
    | none => ("", { st with errno := env.filesErr, calls := st.calls ++ [exe] })
    | some kif =>
      match findText kif with
      | none => ("", { st with calls := st.calls ++ [exe] })
      | some k =>
        let c1 := checkCandE env k exe { st with calls := st.calls ++ [exe] }
        if (c1.1.getD "") ≠ "" then (c1.1.getD "", c1.2)
        else
          match find_last_of exe '/' with
          | none => ("", c1.2)
          | some i =>
            let c2 := checkCandE env k (substrTo exe (i + 1) ++ k.p_comm) c1.2
            (c2.1.getD "", c2.2)

/-- Pure value of the verifier lambda is_exe. -/
def is_exeV (env : Env) (exe : String) : String :=
  if env.kvmOk = false then ""
  else
    match env.files with
    | none => ""
    | some kif =>
      match findText kif with
      | none => ""
      | some k =>
        if ((checkCandV env k exe).getD "") ≠ "" then (checkCandV env k exe).getD ""
        else
          match find_last_of exe '/' with
          | none => ""
          | some i => (checkCandV env k (substrTo exe (i + 1) ++ k.p_comm)).getD ""

/-- The PATH-directory loop of the Ambiguous/Bare branch, with state
threading: each directory is joined with argv0 and verified; when the first
slash position compares greater than the first colon position, the directory
joined with the part of argv0 before the colon is also tried. -/
def searchDirsE (env : Env) (b0 : String) (sp cp : Option Nat) :
    List String → RSt → String × RSt
  | [], st => ("", st)
  | d :: rest, st =>
    let r1 := is_exeE env (d ++ "/" ++ b0) st
    if r1.1 ≠ "" then r1
    else if posGt sp cp then
      match cp with
      | some c =>
        let r2 := is_exeE env (d ++ "/" ++ substrTo b0 c) r1.2
        if r2.1 ≠ "" then r2
        else searchDirsE env b0 sp cp rest r2.2
      | none => searchDirsE env b0 sp cp rest r1.2
    else searchDirsE env b0 sp cp rest r1.2

/-- Pure value of the PATH-directory loop. -/
def searchDirsV (env : Env) (b0 : String) (sp cp : Option Nat) :
    List String → String
  | [] => ""
  | d :: rest =>
    if is_exeV env (d ++ "/" ++ b0) ≠ "" then is_exeV env (d ++ "/" ++ b0)
    else if posGt sp cp then
      match cp with
      | some c =>
        if is_exeV env (d ++ "/" ++ substrTo b0 c) ≠ "" then
          is_exeV env (d ++ "/" ++ substrTo b0 c)
        else searchDirsV env b0 sp cp rest
      | none => searchDirsV env b0 sp cp rest
    else searchDirsV env b0 sp cp rest

/-- The hardcoded fallback directory string of the retry stage. -/
def hardcodedPATH : String :=
  "/usr/bin:/bin:/usr/sbin:/sbin:/usr/X11R6/bin:/usr/local/bin:/usr/local/sbin"

/-- The hardcoded fallback directories as a list. -/
def hardcodedDirs : List String :=
  ["/usr/bin", "/bin", "/usr/sbin", "/sbin", "/usr/X11R6/bin",
   "/usr/local/bin", "/usr/local/sbin"]

/-- The retry search string: the hardcoded list, preceded by HOME/bin when
the HOME environment variable is non-empty. -/
def fallbackPATH (env : Env) : String :=
  if env.getenvStr "HOME" ≠ "" then
    env.getenvStr "HOME" ++ "/bin:" ++ hardcodedPATH
  else hardcodedPATH

/-- The if/else-if classification chain over an argv0 value (absolute
branch, then the Ambiguous/Bare PATH search with its single hardcoded-list
retry), with state threading.  Returns the found path, the updated retried
flag, and the state. -/
def stage1E (env : Env) (b0 : String) (retried : Bool) (st : RSt) :
    String × Bool × RSt :=
  if find_char b0 '/' = some 0 then
    let r := is_exeE env b0 st
    (r.1, retried, r.2)
  else if find_char b0 '/' = none ∨ posGt (find_char b0 '/') (find_char b0 ':') then
    let ra :=
      if env.getenvStr "PATH" ≠ "" then
        searchDirsE env b0 (find_char b0 '/') (find_char b0 ':')
          (getlineSplit (env.getenvStr "PATH").toList) st
      else ("", st)
    if ra.1 = "" ∧ retried = false then
      let rb :=
        searchDirsE env b0 (find_char b0 '/') (find_char b0 ':')
          (getlineSplit (fallbackPATH env).toList) ra.2
      (rb.1, true, rb.2)
    else (ra.1, retried, ra.2)
  else ("", retried, st)

/-- One classification pass over an argv0 value (the body between the
fallback label and the PWD/cwd stage, inclusive), with state threading. -/
def classifyPassE (env : Env) (b0 : String) (retried : Bool) (st : RSt) :
    String × Bool × RSt :=
  let stage1 := stage1E env b0 retried st
  if stage1.1 = "" ∧ find_char b0 '/' ≠ some 0 then
    let rp :=
      if env.getenvStr "PWD" ≠ "" then
        is_exeE env (env.getenvStr "PWD" ++ "/" ++ b0) stage1.2.2
      else ("", stage1.2.2)
    if rp.1 ≠ "" then (rp.1, stage1.2.1, rp.2)
    else
      match env.cwd with
      | some c =>
        let rc := is_exeE env (c ++ "/" ++ b0) rp.2
        (rc.1, stage1.2.1, rc.2)
      | none => ("", stage1.2.1, { rp.2 with errno := env.cwdErr })
  else stage1

/-- Pure value of the classification chain: the found path and the updated
retried flag. -/
def stage1V (env : Env) (b0 : String) (retried : Bool) : String × Bool :=
  if find_char b0 '/' = some 0 then (is_exeV env b0, retried)
  else if find_char b0 '/' = none ∨ posGt (find_char b0 '/') (find_char b0 ':') then
    let pa :=
      if env.getenvStr "PATH" ≠ "" then
        searchDirsV env b0 (find_char b0 '/') (find_char b0 ':')
          (getlineSplit (env.getenvStr "PATH").toList)
      else ""
    if pa = "" ∧ retried = false then
      (searchDirsV env b0 (find_char b0 '/') (find_char b0 ':')
        (getlineSplit (fallbackPATH env).toList), true)
    else (pa, retried)
  else ("", retried)

/-- Pure value of one classification pass: the found path and the updated
retried flag. -/
def classifyPassV (env : Env) (b0 : String) (retried : Bool) : String × Bool :=
  let stage1 := stage1V env b0 retried
  if stage1.1 = "" ∧ find_char b0 '/' ≠ some 0 then
    let pp :=
      if env.getenvStr "PWD" ≠ "" then
        is_exeV env (env.getenvStr "PWD" ++ "/" ++ b0)
      else ""
    if pp ≠ "" then (pp, stage1.2)
    else
      match env.cwd with
      | some c => (is_exeV env (c ++ "/" ++ b0), stage1.2)
      | none => ("", stage1.2)
  else stage1

/-- The resolver body before the final truncation, with state threading:
outer kvm argv fetch, first classification pass on argv0, and the single
underscore-variable restart guarded by the error flag. -/
def resolveRawE (env : Env) (st : RSt) : String × RSt :=
  if env.kvmOk = false then ("", { st with errno := env.kvmErr })
  else
    match env.argv with
    | none => ("", { st with errno := env.argvErr })
    | some buffer =>
      match buffer with
      | [] => ("", st)
      | b0 :: _ =>
        let r1 :=
          if b0 ≠ "" then classifyPassE env b0 false st
          else ("", false, st)
        if r1.1 = "" then
          if env.getenvStr "_" ≠ "" then
            let r2 := classifyPassE env (env.getenvStr "_") r1.2.1 r1.2.2
            (r2.1, r2.2.2)
          else ("", r1.2.2)
        else (r1.1, r1.2.2)

/-- Pure value of the resolver body before the final truncation. -/
def resolveRawV (env : Env) : String :=
  if env.kvmOk = false then ""
  else
    match env.argv with
    | none => ""
    | some buffer =>
      match buffer with
      | [] => ""
      | b0 :: _ =>
        let r1 :=
          if b0 ≠ "" then classifyPassV env b0 false
          else ("", false)
        if r1.1 = "" then
          if env.getenvStr "_" ≠ "" then
            (classifyPassV env (env.getenvStr "_") r1.2).1
          else ""
        else r1.1

/-- Final truncation: keep everything up to and including the last slash;
a string without a slash is returned unchanged. -/
def dirTrunc (p : String) : String :=
  match find_last_of p '/' with
  | some i => substrTo p (i + 1)
  | none => p

/-- The full routine with state threading: resolve, clear errno on success,
truncate to the containing directory. -/
def GetExecutableDirectoryE (env : Env) (st : RSt) : String × RSt :=
  let r := resolveRawE env st
  if r.1 ≠ "" then (dirTrunc r.1, { r.2 with errno := 0 })
  else (dirTrunc r.1, r.2)

/-- Pure value of the full routine. -/
def GetExecutableDirectory (env : Env) : String := dirTrunc (resolveRawV env)

/-- Upper bound on the number of verifier invocations one classification
pass can make: two per PATH field, two per fallback field, plus the
absolute-branch or PWD/cwd candidates. -/
def passCallBound (env : Env) : Nat :=
  2 * (getlineSplit (env.getenvStr "PATH").toList).length +
  2 * (getlineSplit (fallbackPATH env).toList).length + 3

/-- All errno values a failing primitive can leave behind are non-zero, as on
a real kernel. -/
def GoodCodes (env : Env) : Prop :=
  env.kvmErr ≠ 0 ∧ env.argvErr ≠ 0 ∧ env.filesErr ≠ 0 ∧ env.cwdErr ≠ 0 ∧
  (∀ p, env.statErr p ≠ 0) ∧ (∀ p, env.realpathErr p ≠ 0)

/-- Text-segment record of the sample scenarios: device 5, inode 7, process
name app. -/
def kfApp : KFile := ⟨-1, 5, 7, "app"⟩

/-- Mode bits of a regular file with permissions rwxr-xr-x (octal 100755). -/
def modeRX : Nat := 33261

/-- Stat record matching the text segment of the sample scenarios. -/
def stOK : StatRec := ⟨modeRX, 5, 7⟩

/-- Scenario environment: bare argv0 app, PATH unset, PWD=/tmp, and /tmp/app
is the running binary.  Exercises the fall-through of a bare name into the
PWD stage. -/
def envPWD : Env :=
  { kvmOk := true, kvmErr := 3, argv := some ["app"], argvErr := 4,
    files := some [kfApp], filesErr := 5,
    stat := fun s => if s = "/tmp/app" then some stOK else none,
    statErr := fun _ => 2,
    realpath := fun s => if s = "/tmp/app" then some "/tmp/app" else none,
    realpathErr := fun _ => 2,
    getenvStr := fun n => if n = "PWD" then "/tmp" else "",
    cwd := none, cwdErr := 13 }

/-- Scenario environment: bare argv0 app, PATH unset, HOME holds a lone
colon, and no candidate ever verifies. -/
def envHomeColon : Env :=
  { envPWD with
    stat := fun _ => none,
    realpath := fun _ => none,
    getenvStr := fun n => if n = "HOME" then ":" else "" }

/-- Scenario environment: only /d/app exists and is the running binary; the
candidate /d/x fails, triggering the process-name substitution retry. -/
def envSub : Env :=
  { envPWD with
    stat := fun s => if s = "/d/app" then some stOK else none,
    realpath := fun s => if s = "/d/app" then some "/d/app" else none,
    getenvStr := fun _ => "" }

/-- Scenario environment: absolute argv0 /tmp/app naming the running
binary. -/
def envAbs : Env :=
  { envPWD with
    argv := some ["/tmp/app"],
    getenvStr := fun _ => "" }

/-- Scenario environment: bare argv0 app never verifies, the underscore
variable holds the absolute path /tmp/app of the running binary. -/
def envUnd : Env :=
  { envPWD with
    getenvStr := fun n => if n = "_" then "/tmp/app" else "" }

/-- Scenario environment: the record list opens with a non-negative fd
number, hiding the text-segment record behind it. -/
def envStop : Env :=
  { envPWD with files := some [⟨2, 5, 7, "app"⟩, kfApp] }

/-- Scenario environment: bare argv0 app, PATH=/usr/bin:/tmp, and /tmp/app is
the running binary. -/
def envPATH : Env :=
  { envPWD with
    getenvStr := fun n => if n = "PATH" then "/usr/bin:/tmp" else "" }

/-- Scenario environment: bare argv0 app, PATH unset, HOME=/home/u, and no
candidate ever verifies. -/
def envHome : Env :=
  { envPWD with
    stat := fun _ => none,
    realpath := fun _ => none,
    getenvStr := fun n => if n = "HOME" then "/home/u" else "" }

theorem breakColon_snd_le : ∀ s : List Char, (breakColon s).2.length ≤ s.length
  | [] => Nat.le_refl 0
  | x :: xs => by
    simp only [breakColon]
    split
    · exact Nat.le_succ _
    · exact Nat.le_trans (breakColon_snd_le xs) (Nat.le_succ _)

theorem getlineSplitF_fuel : ∀ (f : Nat) (l : List Char), l.length ≤ f →
    getlineSplitF f l = getlineSplit l
  | f, [], _ => by cases f <;> rfl
  | 0, x :: xs, h => by simp at h
  | f + 1, x :: xs, h => by
    have hr : (breakColon (x :: xs)).2.length ≤ xs.length := by
      simp only [breakColon]
      split
      · exact Nat.le_refl _
      · exact breakColon_snd_le xs
    have h1 : getlineSplitF f (breakColon (x :: xs)).2 =
        getlineSplit (breakColon (x :: xs)).2 :=
      getlineSplitF_fuel f (breakColon (x :: xs)).2
        (Nat.le_trans hr (Nat.le_of_succ_le_succ h))
    have h2 : getlineSplitF xs.length (breakColon (x :: xs)).2 =
        getlineSplit (breakColon (x :: xs)).2 :=
      getlineSplitF_fuel xs.length (breakColon (x :: xs)).2 hr
    show String.mk (breakColon (x :: xs)).1 ::
        getlineSplitF f (breakColon (x :: xs)).2 = getlineSplit (x :: xs)
    rw [h1]
    show _ = String.mk (breakColon (x :: xs)).1 ::
        getlineSplitF xs.length (breakColon (x :: xs)).2
    rw [h2]

theorem getlineSplit_cons (x : Char) (xs : List Char) :
    getlineSplit (x :: xs) = String.mk (breakColon (x :: xs)).1 ::
      getlineSplit (breakColon (x :: xs)).2 := by
  show getlineSplitF (xs.length + 1) (x :: xs) = _
  have hr : (breakColon (x :: xs)).2.length ≤ xs.length := by
    simp only [breakColon]
    split
    · exact Nat.le_refl _
    · exact breakColon_snd_le xs
  show String.mk (breakColon (x :: xs)).1 ::
      getlineSplitF xs.length (breakColon (x :: xs)).2 = _
  rw [getlineSplitF_fuel xs.length (breakColon (x :: xs)).2 hr]

theorem toList_append (a b : String) : (a ++ b).toList = a.toList ++ b.toList := rfl

theorem mk_toList_append (a b : String) :
    String.mk (a.toList ++ b.toList) = a ++ b := rfl

theorem checkCandE_fst (env : Env) (k : KFile) (p : String) (st : RSt) :
    (checkCandE env k p st).1 = checkCandV env k p := by
  unfold checkCandE checkCandV
  rcases h : env.stat p with _ | s
  · rfl
  · simp only
    split
    · rcases h2 : env.realpath p with _ | buf
      · rfl
      · simp only
        split <;> rfl
    · rfl

theorem checkCandE_calls (env : Env) (k : KFile) (p : String) (st : RSt) :
    (checkCandE env k p st).2.calls = st.calls := by
  unfold checkCandE
  rcases h : env.stat p with _ | s
  · rfl
  · simp only
    split
    · rcases h2 : env.realpath p with _ | buf
      · rfl
      · simp only
        split <;> rfl
    · rfl

theorem checkCandE_checks (env : Env) (k : KFile) (p : String) (st : RSt) :
    (checkCandE env k p st).2.checks = st.checks ++ [p] := by
  unfold checkCandE
  rcases h : env.stat p with _ | s
  · rfl
  · simp only
    split
    · rcases h2 : env.realpath p with _ | buf
      · rfl
      · simp only
        split <;> rfl
    · rfl

theorem is_exeE_fst (env : Env) (exe : String) (st : RSt) :
    (is_exeE env exe st).1 = is_exeV env exe := by
  unfold is_exeE is_exeV
  split
  · rfl
  · split
    · rfl
    · split
      · rfl
      · simp only [checkCandE_fst]
        split
        · rfl
        · split
          · rfl
          · simp only [checkCandE_fst]

theorem searchDirsE_fst (env : Env) (b0 : String) (sp cp : Option Nat) :
    ∀ (dirs : List String) (st : RSt),
      (searchDirsE env b0 sp cp dirs st).1 = searchDirsV env b0 sp cp dirs
  | [], _ => rfl
  | d :: rest, st => by
    unfold searchDirsE searchDirsV
    simp only [is_exeE_fst]
    split
    · exact is_exeE_fst env _ st
    · split
      · rcases cp with _ | c
        · exact searchDirsE_fst env b0 sp none rest _
        · simp only [is_exeE_fst]
          split
          · exact is_exeE_fst env _ _
          · exact searchDirsE_fst env b0 sp (some c) rest _
      · exact searchDirsE_fst env b0 sp cp rest _

theorem stage1E_fst_flag (env : Env) (b0 : String) (r : Bool) (st : RSt) :
    (stage1E env b0 r st).1 = (stage1V env b0 r).1 ∧
    (stage1E env b0 r st).2.1 = (stage1V env b0 r).2 := by
  unfold stage1E stage1V
  repeat' split <;> (try simp_all [is_exeE_fst, searchDirsE_fst])

theorem classifyPassE_fst_flag (env : Env) (b0 : String) (r : Bool) (st : RSt) :
    (classifyPassE env b0 r st).1 = (classifyPassV env b0 r).1 ∧
    (classifyPassE env b0 r st).2.1 = (classifyPassV env b0 r).2 := by
  unfold classifyPassE classifyPassV
  simp only [(stage1E_fst_flag env b0 r st).1, (stage1E_fst_flag env b0 r st).2]
  repeat' split <;>
    (try simp_all [is_exeE_fst, (stage1E_fst_flag env b0 r st).1,
      (stage1E_fst_flag env b0 r st).2])

theorem classifyPassE_fst (env : Env) (b0 : String) (r : Bool) (st : RSt) :
    (classifyPassE env b0 r st).1 = (classifyPassV env b0 r).1 :=
  (classifyPassE_fst_flag env b0 r st).1

theorem classifyPassE_flag (env : Env) (b0 : String) (r : Bool) (st : RSt) :
    (classifyPassE env b0 r st).2.1 = (classifyPassV env b0 r).2 :=
  (classifyPassE_fst_flag env b0 r st).2

theorem resolveRawE_fst (env : Env) (st : RSt) :
    (resolveRawE env st).1 = resolveRawV env := by
  unfold resolveRawE resolveRawV
  repeat' split <;>
    (try simp_all [classifyPassE_fst, classifyPassE_flag])

theorem GetExecutableDirectoryE_fst (env : Env) (st : RSt) :
    (GetExecutableDirectoryE env st).1 = GetExecutableDirectory env := by
  simp only [GetExecutableDirectoryE, GetExecutableDirectory]
  split <;> simp [resolveRawE_fst]

theorem is_exeE_calls (env : Env) (exe : String) (st : RSt) :
    (is_exeE env exe st).2.calls = st.calls ++ [exe] := by
  unfold is_exeE
  split
  · rfl
  · split
    · rfl
    · split
      · rfl
      · simp only
        split
        · simp [checkCandE_calls]
        · split
          · simp [checkCandE_calls]
          · simp [checkCandE_calls]

theorem lastIdx_eq_none_iff (c : Char) : ∀ l : List Char, lastIdx c l = none ↔ c ∉ l
  | [] => by simp [lastIdx]
  | x :: xs => by
    simp only [lastIdx]
    rcases h : lastIdx c xs with _ | i
    · have hx := (lastIdx_eq_none_iff c xs).1 h
      by_cases hxc : x = c
      · simp [hxc]
      · rw [if_neg hxc]
        refine ⟨fun _ => ?_, fun _ => rfl⟩
        simp only [List.mem_cons, not_or]
        exact ⟨fun hcx => hxc hcx.symm, hx⟩
    · have hmem : c ∈ xs := by
        by_contra hmem
        rw [(lastIdx_eq_none_iff c xs).2 hmem] at h
        cases h
      simp [hmem]

theorem lastIdx_spec (c : Char) : ∀ (l : List Char) (i : Nat), lastIdx c l = some i →
    ∃ pre suf, l = pre ++ c :: suf ∧ pre.length = i ∧ c ∉ suf
  | [], i, h => by cases h
  | x :: xs, i, h => by
    simp only [lastIdx] at h
    rcases h2 : lastIdx c xs with _ | j
    · rw [h2] at h
      by_cases hxc : x = c
      · rw [if_pos hxc] at h
        injection h with h3
        exact ⟨[], xs, by simp [hxc], h3, (lastIdx_eq_none_iff c xs).1 h2⟩
      · rw [if_neg hxc] at h
        cases h
    · rw [h2] at h
      injection h with h3
      obtain ⟨pre, suf, hl, hlen, hns⟩ := lastIdx_spec c xs j h2
      exact ⟨x :: pre, suf, by simp [hl], by simp [hlen, h3], hns⟩

theorem take_len_concat {α : Type} : ∀ (pre : List α) (c : α) (suf : List α),
    (pre ++ c :: suf).take (pre.length + 1) = pre ++ [c]
  | [], _, _ => rfl
  | x :: xs, c, suf => by
    simpa using take_len_concat xs c suf

theorem toList_mk (l : List Char) : (String.mk l).toList = l := rfl

theorem dirTrunc_decomp (p : String) :
    (∃ tail, p.toList = (dirTrunc p).toList ++ tail ∧ '/' ∉ tail) ∧
    ('/' ∈ p.toList → ((dirTrunc p).toList).getLast? = some '/') ∧
    ('/' ∉ p.toList → dirTrunc p = p) := by
  rcases hf : find_last_of p '/' with _ | i
  · have hmem : '/' ∉ p.toList := (lastIdx_eq_none_iff '/' p.toList).1 hf
    have hid : dirTrunc p = p := by unfold dirTrunc; rw [hf]
    rw [hid]
    exact ⟨⟨[], by simp, by simp⟩, fun hm => absurd hm hmem, fun _ => rfl⟩
  · obtain ⟨pre, suf, hl, hlen, hns⟩ := lastIdx_spec '/' p.toList i hf
    have htake : (dirTrunc p).toList = pre ++ ['/'] := by
      unfold dirTrunc
      rw [hf]
      unfold substrTo
      rw [toList_mk, hl, ← hlen, take_len_concat]
    constructor
    · exact ⟨suf, by rw [htake, hl]; simp, hns⟩
    constructor
    · intro _
      rw [htake]
      simp
    · intro hnm
      exact absurd (by rw [hl]; simp : '/' ∈ p.toList) hnm

theorem dirTrunc_empty_iff (p : String) : dirTrunc p = "" ↔ p = "" := by
  constructor
  · intro h
    rcases hf : find_last_of p '/' with _ | i
    · have hid : dirTrunc p = p := by unfold dirTrunc; rw [hf]
      rw [hid] at h
      exact h
    · obtain ⟨pre, suf, hl, hlen, -⟩ := lastIdx_spec '/' p.toList i hf
      have htake : (dirTrunc p).toList = pre ++ ['/'] := by
        unfold dirTrunc
        rw [hf]
        unfold substrTo
        rw [toList_mk, hl, ← hlen, take_len_concat]
      rw [h] at htake
      simp at htake
  · intro h
    rw [h]
    rfl

theorem checkCandE_errno (env : Env) (k : KFile) (p : String) (st : RSt)
    (hs : ∀ q, env.statErr q ≠ 0) (hr : ∀ q, env.realpathErr q ≠ 0)
    (h : st.errno ≠ 0) : (checkCandE env k p st).2.errno ≠ 0 := by
  unfold checkCandE
  rcases h1 : env.stat p with _ | s
  · exact hs p
  · simp only
    split
    · rcases h2 : env.realpath p with _ | buf
      · exact hr p
      · simp only
        split <;> exact h
    · exact h

theorem is_exeE_errno (env : Env) (exe : String) (st : RSt)
    (hg : GoodCodes env) (h : st.errno ≠ 0) : (is_exeE env exe st).2.errno ≠ 0 := by
  obtain ⟨hkvm, -, hfiles, -, hs, hr⟩ := hg
  unfold is_exeE
  split
  · exact hkvm
  · split
    · exact hfiles
    · split
      · exact h
      · simp only
        split
        · exact checkCandE_errno env _ exe _ hs hr h
        · split
          · exact checkCandE_errno env _ exe _ hs hr h
          · exact checkCandE_errno env _ _ _ hs hr
              (checkCandE_errno env _ exe _ hs hr h)

theorem searchDirsE_errno (env : Env) (b0 : String) (sp cp : Option Nat)
    (hg : GoodCodes env) :
    ∀ (dirs : List String) (st : RSt), st.errno ≠ 0 →
      (searchDirsE env b0 sp cp dirs st).2.errno ≠ 0
  | [], _, h => h
  | d :: rest, st, h => by
    unfold searchDirsE
    simp only [is_exeE_fst]
    split
    · exact is_exeE_errno env _ st hg h
    · split
      · rcases cp with _ | c
        · exact searchDirsE_errno env b0 sp none hg rest _
            (is_exeE_errno env _ st hg h)
        · simp only [is_exeE_fst]
          split
          · exact is_exeE_errno env _ _ hg (is_exeE_errno env _ st hg h)
          · exact searchDirsE_errno env b0 sp (some c) hg rest _
              (is_exeE_errno env _ _ hg (is_exeE_errno env _ st hg h))
      · exact searchDirsE_errno env b0 sp cp hg rest _
          (is_exeE_errno env _ st hg h)

theorem stage1E_errno (env : Env) (b0 : String) (r : Bool) (st : RSt)
    (hg : GoodCodes env) (h : st.errno ≠ 0) :
    (stage1E env b0 r st).2.2.errno ≠ 0 := by
  unfold stage1E
  simp only [is_exeE_fst, searchDirsE_fst]
  split
  · exact is_exeE_errno env b0 st hg h
  · split
    · split
      · split
        · refine searchDirsE_errno env b0 _ _ hg _ _ ?_
          exact searchDirsE_errno env b0 _ _ hg _ _ h
        · exact searchDirsE_errno env b0 _ _ hg _ _ h
      · split
        · refine searchDirsE_errno env b0 _ _ hg _ _ h
        · exact h
    · exact h

theorem classifyPassE_errno (env : Env) (b0 : String) (r : Bool) (st : RSt)
    (hg : GoodCodes env) (h : st.errno ≠ 0) :
    (classifyPassE env b0 r st).2.2.errno ≠ 0 := by
  have hcwd := hg.2.2.2.1
  have hs1 := stage1E_errno env b0 r st hg h
  unfold classifyPassE
  simp only [is_exeE_fst, stage1E_fst_flag]
  split
  · split
    · split
      · exact is_exeE_errno env _ _ hg hs1
      · split
        · exact is_exeE_errno env _ _ hg (is_exeE_errno env _ _ hg hs1)
        · exact hcwd
    · split
      · exact hs1
      · split
        · exact is_exeE_errno env _ _ hg hs1
        · exact hcwd
  · exact hs1

theorem resolveRawE_errno (env : Env) (st : RSt)
    (hg : GoodCodes env) (h : st.errno ≠ 0) :
    (resolveRawE env st).2.errno ≠ 0 := by
  unfold resolveRawE
  simp only [classifyPassE_fst]
  repeat' split
  all_goals
    first
    | exact hg.1
    | exact hg.2.1
    | exact h
    | exact classifyPassE_errno env _ _ _ hg h
    | exact classifyPassE_errno env _ _ _ hg (classifyPassE_errno env _ _ _ hg h)

theorem searchDirsE_all_fail (env : Env) (b0 : String) (sp cp : Option Nat)
    (hg : posGt sp cp = false) :
    ∀ (dirs : List String) (st : RSt),
      (∀ d ∈ dirs, is_exeV env (d ++ "/" ++ b0) = "") →
      (searchDirsE env b0 sp cp dirs st).1 = "" ∧
      (searchDirsE env b0 sp cp dirs st).2.calls =
        st.calls ++ dirs.map (fun d => d ++ "/" ++ b0)
  | [], st, _ => ⟨rfl, by simp [searchDirsE]⟩
  | d :: rest, st, hall => by
    have hd := hall d (List.mem_cons_self d rest)
    have ih := searchDirsE_all_fail env b0 sp cp hg rest
      (is_exeE env (d ++ "/" ++ b0) st).2
      (fun x hx => hall x (List.mem_cons_of_mem d hx))
    unfold searchDirsE
    simp only [is_exeE_fst, hd, hg]
    simp only [ne_eq, not_true_eq_false, if_false, Bool.false_eq_true]
    refine ⟨ih.1, ?_⟩
    rw [ih.2, is_exeE_calls]
    simp

theorem is_exeE_calls_len (env : Env) (exe : String) (st : RSt) :
    ((is_exeE env exe st).2.calls).length = st.calls.length + 1 := by
  rw [is_exeE_calls]
  simp

theorem searchDirsE_calls_len (env : Env) (b0 : String) (sp cp : Option Nat) :
    ∀ (dirs : List String) (st : RSt),
      ((searchDirsE env b0 sp cp dirs st).2.calls).length ≤
        st.calls.length + 2 * dirs.length
  | [], st => by simp [searchDirsE]
  | d :: rest, st => by
    unfold searchDirsE
    simp only [is_exeE_fst]
    split
    · rw [is_exeE_calls_len]
      simp only [List.length_cons]
      omega
    · split
      · rcases cp with _ | c
        · have := searchDirsE_calls_len env b0 sp none rest
            (is_exeE env (d ++ "/" ++ b0) st).2
          rw [is_exeE_calls_len] at this
          simp only [List.length_cons]
          omega
        · simp only [is_exeE_fst]
          split
          · rw [is_exeE_calls_len, is_exeE_calls_len]
            simp only [List.length_cons]
            omega
          · have := searchDirsE_calls_len env b0 sp (some c) rest
              (is_exeE env (d ++ "/" ++ substrTo b0 c)
                (is_exeE env (d ++ "/" ++ b0) st).2).2
            rw [is_exeE_calls_len, is_exeE_calls_len] at this
            simp only [List.length_cons]
            omega
      · have := searchDirsE_calls_len env b0 sp cp rest
          (is_exeE env (d ++ "/" ++ b0) st).2
        rw [is_exeE_calls_len] at this
        simp only [List.length_cons]
        omega

theorem stage1E_calls_len (env : Env) (b0 : String) (r : Bool) (st : RSt) :
    ((stage1E env b0 r st).2.2.calls).length ≤
      st.calls.length + passCallBound env := by
  unfold stage1E passCallBound
  simp only [is_exeE_fst, searchDirsE_fst]
  repeat' split
  all_goals simp only []
  all_goals
    first
    | (rw [is_exeE_calls_len]; omega)
    | omega
    | (have h1 := searchDirsE_calls_len env b0 (find_char b0 '/') (find_char b0 ':')
          (getlineSplit (env.getenvStr "PATH").toList) st
       have h2 := searchDirsE_calls_len env b0 (find_char b0 '/') (find_char b0 ':')
          (getlineSplit (fallbackPATH env).toList)
          (searchDirsE env b0 (find_char b0 '/') (find_char b0 ':')
            (getlineSplit (env.getenvStr "PATH").toList) st).2
       omega)
    | (have h2 := searchDirsE_calls_len env b0 (find_char b0 '/') (find_char b0 ':')
          (getlineSplit (fallbackPATH env).toList) st
       omega)

theorem classifyPassE_calls_len (env : Env) (b0 : String) (r : Bool) (st : RSt) :
    ((classifyPassE env b0 r st).2.2.calls).length ≤
      st.calls.length + passCallBound env + 2 := by
  have hs1 := stage1E_calls_len env b0 r st
  unfold classifyPassE
  simp only [is_exeE_fst]
  repeat' split
  all_goals try simp only []
  all_goals
    first
    | omega
    | (rw [is_exeE_calls_len]; omega)
    | (rw [is_exeE_calls_len, is_exeE_calls_len]; omega)

theorem classifyPassE_calls_len1 (env : Env) (b0 : String) (r : Bool) (st : RSt) :
    ((classifyPassE env b0 r st).2.2.calls).length ≤
      st.calls.length + 2 * (passCallBound env + 2) := by
  have := classifyPassE_calls_len env b0 r st
  omega

theorem classifyPassE_calls_len2 (env : Env) (b0 u : String) (r r2 : Bool) (st : RSt) :
    ((classifyPassE env u r2 (classifyPassE env b0 r st).2.2).2.2.calls).length ≤
      st.calls.length + 2 * (passCallBound env + 2) := by
  have h1 := classifyPassE_calls_len env b0 r st
  have h2 := classifyPassE_calls_len env u r2 (classifyPassE env b0 r st).2.2
  omega

theorem resolveRawE_calls_len (env : Env) (st : RSt) :
    ((resolveRawE env st).2.calls).length ≤
      st.calls.length + 2 * (passCallBound env + 2) := by
  unfold resolveRawE
  repeat' (first | split | simp only [])
  all_goals
    first
    | omega
    | apply classifyPassE_calls_len1
    | apply classifyPassE_calls_len2

theorem breakColon_append : ∀ (l1 l2 : List Char), ':' ∉ l1 →
    breakColon (l1 ++ ':' :: l2) = (l1, l2)
  | [], l2, _ => by simp [breakColon]
  | x :: xs, l2, h => by
    have hx : ¬x = ':' := fun hx => h (by simp [hx])
    have hxs : ':' ∉ xs := fun hm => h (by simp [hm])
    show breakColon (x :: (xs ++ ':' :: l2)) = (x :: xs, l2)
    simp only [breakColon, if_neg hx]
    rw [breakColon_append xs l2 hxs]

theorem getlineSplit_split (l1 l2 : List Char) (h : ':' ∉ l1) :
    getlineSplit (l1 ++ ':' :: l2) = String.mk l1 :: getlineSplit l2 := by
  rcases l1 with _ | ⟨x, xs⟩
  · rw [List.nil_append, getlineSplit_cons]
    simp [breakColon]
  · rw [List.cons_append, getlineSplit_cons]
    have hb : breakColon (x :: (xs ++ ':' :: l2)) = (x :: xs, l2) := by
      rw [← List.cons_append]
      exact breakColon_append (x :: xs) l2 h
    rw [hb]

theorem getlineSplit_hardcoded :
    getlineSplit hardcodedPATH.toList = hardcodedDirs := by decide

theorem fallback_dirs_eq (env : Env) (hh : env.getenvStr "HOME" ≠ "")
    (hhc : ':' ∉ (env.getenvStr "HOME").toList) :
    getlineSplit (fallbackPATH env).toList =
      (env.getenvStr "HOME" ++ "/bin") :: hardcodedDirs := by
  unfold fallbackPATH
  rw [if_pos hh]
  have hbin : ("/bin:" : String).toList = ("/bin" : String).toList ++ [':'] := by
    decide
  have h1 : (env.getenvStr "HOME" ++ "/bin:" ++ hardcodedPATH).toList =
      ((env.getenvStr "HOME").toList ++ ("/bin" : String).toList) ++
        ':' :: hardcodedPATH.toList := by
    rw [toList_append, toList_append, hbin]
    simp
  have h2 : ':' ∉ (env.getenvStr "HOME").toList ++ ("/bin" : String).toList := by
    intro hm
    rcases List.mem_append.1 hm with hm1 | hm2
    · exact hhc hm1
    · simp at hm2
  rw [h1, getlineSplit_split _ _ h2, mk_toList_append, getlineSplit_hardcoded]

theorem checkCandV_realpath (env : Env) (k : KFile) (p : String) (b : String)
    (h : checkCandV env k p = some b) : env.realpath p = some b := by
  rcases h1 : env.stat p with _ | s
  · simp [checkCandV, h1] at h
  · rcases h2 : env.realpath p with _ | buf
    · simp [checkCandV, h1, h2] at h
    · by_cases h3 : s.st_mode &&& S_IXUSR ≠ 0 ∧ s.st_mode &&& S_IFREG ≠ 0
      · by_cases h4 : s.st_dev = k.va_fsid ∧ s.st_ino = k.va_fileid
        · simp [checkCandV, h1, h2, h3, h4] at h
          simp [h2, h]
        · simp [checkCandV, h1, h2, h3, h4] at h
      · simp [checkCandV, h1, h3] at h

theorem findText_stops : ∀ (pre : List KFile) (r : KFile) (rest : List KFile),
    (∀ q ∈ pre, q.fd_fd ≠ KERN_FILE_TEXT) → 0 ≤ r.fd_fd →
    findText (pre ++ r :: rest) = none
  | [], r, rest, _, hr => by
    simp only [List.nil_append, findText]
    rw [if_neg (by omega : ¬r.fd_fd < 0)]
  | q :: pre, r, rest, hpre, hr => by
    simp only [List.cons_append, findText]
    split
    · rw [if_neg (hpre q (List.mem_cons_self q pre))]
      exact findText_stops pre r rest
        (fun x hx => hpre x (List.mem_cons_of_mem q hx)) hr
    · rfl

theorem stage1E_bare_fail (env : Env) (b0 : String) (st : RSt)
    (hs : find_char b0 '/' = none) (hc : find_char b0 ':' = none)
    (hpath : ∀ d ∈ getlineSplit (env.getenvStr "PATH").toList,
        is_exeV env (d ++ "/" ++ b0) = "")
    (hfb : ∀ d ∈ getlineSplit (fallbackPATH env).toList,
        is_exeV env (d ++ "/" ++ b0) = "") :
    (stage1E env b0 false st).1 = "" ∧ (stage1E env b0 false st).2.1 = true ∧
    (stage1E env b0 false st).2.2.calls =
      st.calls ++
        (getlineSplit (env.getenvStr "PATH").toList).map (fun d => d ++ "/" ++ b0) ++
        (getlineSplit (fallbackPATH env).toList).map (fun d => d ++ "/" ++ b0) := by
  have hone : ((none : Option Nat) = some 0) = False := by simp
  unfold stage1E
  rw [hs, hc]
  by_cases hp : env.getenvStr "PATH" = ""
  · have hnil2 : getlineSplit ("" : String).toList = [] := rfl
    have hall := searchDirsE_all_fail env b0 none none rfl
      (getlineSplit (fallbackPATH env).toList) st hfb
    simp only [hp, hnil2, List.map_nil, List.append_nil, ne_eq, not_true_eq_false,
      if_false, hone, true_or, if_true, and_self]
    exact ⟨hall.1, trivial, hall.2⟩
  · have hall1 := searchDirsE_all_fail env b0 none none rfl
      (getlineSplit (env.getenvStr "PATH").toList) st hpath
    have hall2 := searchDirsE_all_fail env b0 none none rfl
      (getlineSplit (fallbackPATH env).toList)
      (searchDirsE env b0 none none
        (getlineSplit (env.getenvStr "PATH").toList) st).2 hfb
    simp only [hp, ne_eq, not_false_eq_true, if_true, hone, if_false, true_or,
      hall1.1, and_self]
    refine ⟨hall2.1, trivial, ?_⟩
    rw [hall2.2, hall1.2, List.append_assoc]

theorem classifyPassE_bare_fail (env : Env) (b0 : String) (st : RSt)
    (hs : find_char b0 '/' = none) (hc : find_char b0 ':' = none)
    (hpath : ∀ d ∈ getlineSplit (env.getenvStr "PATH").toList,
        is_exeV env (d ++ "/" ++ b0) = "")
    (hfb : ∀ d ∈ getlineSplit (fallbackPATH env).toList,
        is_exeV env (d ++ "/" ++ b0) = "")
    (hpwd : env.getenvStr "PWD" = "")
    (hcwd : env.cwd = none) :
    (classifyPassE env b0 false st).1 = "" ∧
    (classifyPassE env b0 false st).2.1 = true ∧
    (classifyPassE env b0 false st).2.2.calls =
      st.calls ++
        (getlineSplit (env.getenvStr "PATH").toList).map (fun d => d ++ "/" ++ b0) ++
        (getlineSplit (fallbackPATH env).toList).map (fun d => d ++ "/" ++ b0) := by
  obtain ⟨h1, h2, h3⟩ := stage1E_bare_fail env b0 st hs hc hpath hfb
  unfold classifyPassE
  rw [hs]
  simp [h1, h2, h3, hpwd, hcwd]

theorem classifyPassV_bare_fail_all (env : Env) (b0 : String)
    (hs : find_char b0 '/' = none) (hc : find_char b0 ':' = none)
    (hpath : ∀ d ∈ getlineSplit (env.getenvStr "PATH").toList,
        is_exeV env (d ++ "/" ++ b0) = "")
    (hfb : ∀ d ∈ getlineSplit (fallbackPATH env).toList,
        is_exeV env (d ++ "/" ++ b0) = "")
    (hpwd : env.getenvStr "PWD" ≠ "" →
        is_exeV env (env.getenvStr "PWD" ++ "/" ++ b0) = "")
    (hcwd : ∀ c, env.cwd = some c → is_exeV env (c ++ "/" ++ b0) = "") :
    (classifyPassV env b0 false).1 = "" := by
  have h1 : (stage1V env b0 false).1 = "" := by
    rw [← (stage1E_fst_flag env b0 false ⟨0, [], []⟩).1]
    exact (stage1E_bare_fail env b0 ⟨0, [], []⟩ hs hc hpath hfb).1
  unfold classifyPassV
  rw [hs]
  by_cases hp : env.getenvStr "PWD" = ""
  · rcases hcw : env.cwd with _ | c
    · simp [h1, hp, hcw]
    · simp [h1, hp, hcw, hcwd c hcw]
  · rcases hcw : env.cwd with _ | c
    · simp [h1, hp, hcw, hpwd hp]
    · simp [h1, hp, hcw, hpwd hp, hcwd c hcw]

theorem getD_ne_some (o : Option String) (h : o.getD "" ≠ "") :
    o = some (o.getD "") := by
  rcases o with _ | v
  · exact absurd rfl h
  · rfl

theorem checkCandV_none_of_getD (env : Env) (k : KFile) (p : String)
    (hrp : ∀ q r, env.realpath q = some r → r ≠ "")
    (h : (checkCandV env k p).getD "" = "") : checkCandV env k p = none := by
  rcases hcc : checkCandV env k p with _ | v
  · rfl
  · rw [hcc] at h
    simp only [Option.getD_some] at h
    exact absurd h (hrp p v (checkCandV_realpath env k p v hcc))

/-- C1 counterexample: the candidate /d/x names no filesystem entry at all
(its stat fails), yet the verifier returns the non-empty canonical path
/d/app, reached through the process-name substitution retry.  This falsifies
the claim that a non-empty result is returned only when the candidate itself
passes the filesystem checks, and that otherwise the result is empty. -/
theorem c1_counterexample :
    is_exeV envSub "/d/x" = "/d/app" ∧ envSub.stat "/d/x" = none := by
  exact ⟨by decide, by decide⟩

/-- C1 (amended): for every realpath model yielding non-empty canonical
paths, the verifier returns a non-empty string only if either the candidate
itself, or, when the candidate fails its checks and carries a slash, the
retry candidate obtained by substituting the kernel-reported process name
for the final path component, passes every filesystem check against the
text-segment record, the returned string being the canonicalization of
whichever candidate passed; conversely, when the candidate itself passes all
checks, its canonicalization is returned. -/
theorem c1_verifier_amended (env : Env) (exe : String)
    (hrp : ∀ p r, env.realpath p = some r → r ≠ "") :
    (is_exeV env exe ≠ "" →
      env.kvmOk = true ∧ ∃ kif k, env.files = some kif ∧ findText kif = some k ∧
        (checkCandV env k exe = some (is_exeV env exe) ∨
          (checkCandV env k exe = none ∧
            ∃ i, find_last_of exe '/' = some i ∧
              checkCandV env k (substrTo exe (i + 1) ++ k.p_comm) =
                some (is_exeV env exe)))) ∧
    (∀ kif k b, env.kvmOk = true → env.files = some kif → findText kif = some k →
      checkCandV env k exe = some b → is_exeV env exe = b) := by
  unfold is_exeV
  split
  · rename_i hk0
    refine ⟨fun hne => absurd rfl hne, fun kif k b hk _ _ _ => ?_⟩
    rw [hk] at hk0
    cases hk0
  · rename_i hk0
    have hk : env.kvmOk = true := by
      rcases h : env.kvmOk
      · exact absurd h hk0
      · rfl
    split
    · rename_i heq
      refine ⟨fun hne => absurd rfl hne, fun kif k b _ hf _ _ => ?_⟩
      rw [heq] at hf
      cases hf
    · rename_i kif0 heq
      split
      · rename_i hft
        refine ⟨fun hne => absurd rfl hne, fun kif k b _ hf hfb3 _ => ?_⟩
        rw [heq] at hf
        injection hf with hkif
        rw [← hkif] at hfb3
        rw [hft] at hfb3
        cases hfb3
      · rename_i k0 hft
        split
        · rename_i hgd
          constructor
          · intro _
            exact ⟨hk, kif0, k0, heq, hft, Or.inl (getD_ne_some _ hgd)⟩
          · intro kif k b _ hf hfb3 hcc
            rw [heq] at hf
            injection hf with hkif
            subst hkif
            rw [hft] at hfb3
            injection hfb3 with hkk
            subst hkk
            rw [hcc]
            simp
        · rename_i hgd
          have hgd2 : (checkCandV env k0 exe).getD "" = "" := not_ne_iff.1 hgd
          have hccn := checkCandV_none_of_getD env k0 exe hrp hgd2
          split
          · constructor
            · intro hne
              exact absurd rfl hne
            · intro kif k b _ hf hfb3 hcc
              rw [heq] at hf
              injection hf with hkif
              subst hkif
              rw [hft] at hfb3
              injection hfb3 with hkk
              subst hkk
              rw [hccn] at hcc
              cases hcc
          · rename_i i hlast
            constructor
            · intro hne
              exact ⟨hk, kif0, k0, heq, hft,
                Or.inr ⟨hccn, i, hlast, getD_ne_some _ hne⟩⟩
            · intro kif k b _ hf hfb3 hcc
              rw [heq] at hf
              injection hf with hkif
              subst hkif
              rw [hft] at hfb3
              injection hfb3 with hkk
              subst hkk
              rw [hccn] at hcc
              cases hcc

/-- C1 witness: applying the amended verifier theorem at the environment of
the substitution scenario and the existing candidate /d/app. -/
theorem c1_witness : is_exeV envSub "/d/app" = "/d/app" :=
  (c1_verifier_amended envSub "/d/app"
    (fun p r h => by
      simp only [envSub, envPWD] at h
      split at h
      · injection h with hr
        rw [← hr]
        decide
      · cases h)).2
    [kfApp] kfApp "/d/app" rfl rfl rfl (by decide)

/-- C2: the returned string is the verified path truncated after its last
separator: the verified path extends the result by a slash-free tail, the
result ends in a slash whenever the verified path contains one, a verified
path without separator is returned unchanged, and a failed (empty)
resolution yields the empty string. -/
theorem c2_directory_truncation (env : Env) (st : RSt) :
    (∃ tail, ((resolveRawE env st).1).toList =
        ((GetExecutableDirectoryE env st).1).toList ++ tail ∧ '/' ∉ tail) ∧
    ('/' ∈ ((resolveRawE env st).1).toList →
      (((GetExecutableDirectoryE env st).1).toList).getLast? = some '/') ∧
    ('/' ∉ ((resolveRawE env st).1).toList →
      (GetExecutableDirectoryE env st).1 = (resolveRawE env st).1) ∧
    ((resolveRawE env st).1 = "" → (GetExecutableDirectoryE env st).1 = "") := by
  have h1 : (GetExecutableDirectoryE env st).1 =
      dirTrunc (resolveRawE env st).1 := by
    simp only [GetExecutableDirectoryE]
    split <;> rfl
  rw [h1]
  obtain ⟨a, b, c⟩ := dirTrunc_decomp (resolveRawE env st).1
  exact ⟨a, b, c, fun h => by rw [h]; rfl⟩

/-- C2 witness: in the absolute-argv0 scenario the verified path /tmp/app
contains a slash, so the truncation theorem yields a result ending in the
separator. -/
theorem c2_witness :
    (((GetExecutableDirectoryE envAbs ⟨9, [], []⟩).1).toList).getLast? =
      some '/' :=
  (c2_directory_truncation envAbs ⟨9, [], []⟩).2.1 (by decide)

/-- C3 counterexample: with PATH unset, bare argv0 app absent from every
hardcoded fallback directory, and PWD=/tmp naming the running binary, the
resolver still constructs the PWD-joined candidate /tmp/app and returns the
non-empty result /tmp/: the npos separator position compares greater than
zero, so bare names fall into the PWD/cwd stage, contradicting the claimed
empty result. -/
theorem c3_counterexample :
    GetExecutableDirectory envPWD = "/tmp/" ∧
    envPWD.getenvStr "PATH" = "" ∧
    (GetExecutableDirectoryE envPWD ⟨9, [], []⟩).2.calls.contains "/tmp/app" =
      true ∧
    envPWD.stat "/usr/bin/app" = none ∧ envPWD.stat "/bin/app" = none ∧
    envPWD.stat "/usr/sbin/app" = none ∧ envPWD.stat "/sbin/app" = none ∧
    envPWD.stat "/usr/X11R6/bin/app" = none ∧
    envPWD.stat "/usr/local/bin/app" = none ∧
    envPWD.stat "/usr/local/sbin/app" = none := by
  exact ⟨by decide, by decide, by decide, by decide, by decide, by decide,
    by decide, by decide, by decide, by decide⟩

/-- C3 (amended): the classification branches of the if/else-if chain are
exclusive, but after the Ambiguous/Bare search fails, a bare argv0 still
falls into the PWD/cwd stage because its npos separator position compares
greater than zero; with PATH unset or all its entries failing, the bare name
absent from the fallback directories, the underscore variable unset, and
additionally the PWD-joined and cwd-joined candidates failing verification,
the call returns empty. -/
theorem c3_bare_argv_amended (env : Env) (a0 : String) (rest : List String)
    (hk : env.kvmOk = true)
    (hargv : env.argv = some (a0 :: rest))
    (hs : find_char a0 '/' = none) (hc : find_char a0 ':' = none)
    (hpath : ∀ d ∈ getlineSplit (env.getenvStr "PATH").toList,
        is_exeV env (d ++ "/" ++ a0) = "")
    (hfb : ∀ d ∈ getlineSplit (fallbackPATH env).toList,
        is_exeV env (d ++ "/" ++ a0) = "")
    (hpwd : env.getenvStr "PWD" ≠ "" →
        is_exeV env (env.getenvStr "PWD" ++ "/" ++ a0) = "")
    (hcwd : ∀ c, env.cwd = some c → is_exeV env (c ++ "/" ++ a0) = "")
    (hu : env.getenvStr "_" = "") :
    GetExecutableDirectory env = "" := by
  have hcl : (classifyPassV env a0 false).1 = "" :=
    classifyPassV_bare_fail_all env a0 hs hc hpath hfb hpwd hcwd
  have hraw : resolveRawV env = "" := by
    unfold resolveRawV
    rw [hargv]
    by_cases ha : a0 = ""
    · simp [hk, ha, hu]
    · simp [hk, ha, hcl, hu]
  unfold GetExecutableDirectory
  rw [hraw]
  rfl

/-- C3 witness: the amended theorem applied at the environment in which no
candidate verifies at all. -/
theorem c3_witness : GetExecutableDirectory envHomeColon = "" :=
  c3_bare_argv_amended envHomeColon "app" [] (by decide) rfl (by decide)
    (by decide)
    (by
      intro d hd
      rw [(by decide : getlineSplit (envHomeColon.getenvStr "PATH").toList =
        ([] : List String))] at hd
      cases hd)
    (by
      intro d hd
      rw [(by decide : getlineSplit (fallbackPATH envHomeColon).toList =
        ["", "/bin", "/usr/bin", "/bin", "/usr/sbin", "/sbin",
         "/usr/X11R6/bin", "/usr/local/bin", "/usr/local/sbin"])] at hd
      fin_cases hd <;> decide)
    (fun h => absurd (by decide) h)
    (fun c hcE => Option.noConfusion hcE)
    (by decide)

/-- C4 counterexample: when HOME is the one-character string containing only
a colon, HOME is non-empty, yet the fallback retry never probes the
directory HOME/bin: the colon inside HOME splits the search string
differently, so no candidate HOME/bin/argv0 (here :/bin/app) is ever handed
to the verifier although hardcoded entries such as /usr/bin are probed. -/
theorem c4_counterexample :
    envHomeColon.getenvStr "HOME" = ":" ∧
    (GetExecutableDirectoryE envHomeColon ⟨9, [], []⟩).2.calls.contains
      ":/bin/app" = false ∧
    (GetExecutableDirectoryE envHomeColon ⟨9, [], []⟩).2.calls.contains
      "/usr/bin/app" = true := by
  exact ⟨by decide, by decide, by decide⟩

/-- C4 (amended): for a bare colon-free argv0, when no PATH entry verifies,
the resolver performs exactly one retry over the hardcoded fallback list,
and when HOME is non-empty and contains no colon the retry probes HOME/bin
before every hardcoded entry: the verifier-call trace of the whole call is
exactly the PATH candidates followed by one pass over (HOME/bin followed by
the hardcoded directories), each joined with argv0, and the call fails. -/
theorem c4_fallback_amended (env : Env) (a0 : String) (rest : List String)
    (st : RSt)
    (hk : env.kvmOk = true)
    (hargv : env.argv = some (a0 :: rest))
    (ha0 : a0 ≠ "")
    (hs : find_char a0 '/' = none) (hc : find_char a0 ':' = none)
    (hpath : ∀ d ∈ getlineSplit (env.getenvStr "PATH").toList,
        is_exeV env (d ++ "/" ++ a0) = "")
    (hfb : ∀ d ∈ getlineSplit (fallbackPATH env).toList,
        is_exeV env (d ++ "/" ++ a0) = "")
    (hhome : env.getenvStr "HOME" ≠ "")
    (hhc : ':' ∉ (env.getenvStr "HOME").toList)
    (hpwd : env.getenvStr "PWD" = "")
    (hcwd : env.cwd = none)
    (hu : env.getenvStr "_" = "") :
    getlineSplit (fallbackPATH env).toList =
      (env.getenvStr "HOME" ++ "/bin") :: hardcodedDirs ∧
    (GetExecutableDirectoryE env st).1 = "" ∧
    (GetExecutableDirectoryE env st).2.calls =
      st.calls ++
        (getlineSplit (env.getenvStr "PATH").toList).map
          (fun d => d ++ "/" ++ a0) ++
        ((env.getenvStr "HOME" ++ "/bin") :: hardcodedDirs).map
          (fun d => d ++ "/" ++ a0) := by
  have hdirs := fallback_dirs_eq env hhome hhc
  obtain ⟨h1, h2, h3⟩ := classifyPassE_bare_fail env a0 st hs hc hpath hfb
    hpwd hcwd
  have hresolve : resolveRawE env st =
      ("", (classifyPassE env a0 false st).2.2) := by
    unfold resolveRawE
    rw [hargv]
    simp [hk, ha0, h1, hu]
  refine ⟨hdirs, ?_, ?_⟩
  · simp only [GetExecutableDirectoryE, hresolve]
    simp
    decide
  · simp only [GetExecutableDirectoryE, hresolve]
    simp only [ne_eq, not_true_eq_false, if_false]
    rw [h3, hdirs]

/-- C4 witness: the amended theorem applied at the environment with
HOME=/home/u, PATH unset and a never-verifying filesystem. -/
theorem c4_witness :
    getlineSplit (fallbackPATH envHome).toList =
      (envHome.getenvStr "HOME" ++ "/bin") :: hardcodedDirs ∧
    (GetExecutableDirectoryE envHome ⟨9, [], []⟩).1 = "" ∧
    (GetExecutableDirectoryE envHome ⟨9, [], []⟩).2.calls =
      [] ++
        (getlineSplit (envHome.getenvStr "PATH").toList).map
          (fun d => d ++ "/" ++ "app") ++
        ((envHome.getenvStr "HOME" ++ "/bin") :: hardcodedDirs).map
          (fun d => d ++ "/" ++ "app") :=
  c4_fallback_amended envHome "app" [] ⟨9, [], []⟩ (by decide) rfl (by decide)
    (by decide) (by decide)
    (by
      intro d hd
      rw [(by decide : getlineSplit (envHome.getenvStr "PATH").toList =
        ([] : List String))] at hd
      cases hd)
    (by
      intro d hd
      rw [(by decide : getlineSplit (fallbackPATH envHome).toList =
        ["/home/u/bin", "/usr/bin", "/bin", "/usr/sbin", "/sbin",
         "/usr/X11R6/bin", "/usr/local/bin", "/usr/local/sbin"])] at hd
      fin_cases hd <;> decide)
    (by decide) (by decide) (by decide) (by decide) (by decide)

/-- C5: within one verifier call the filesystem-check trace extends by at
most two entries: nothing (when the kernel introspection yields no
text-segment record), the candidate alone, or the candidate followed by one
retry candidate built from the same directory prefix and the
kernel-reported process name; a candidate without separator is never
retried autonomously, and conversely, whenever the text-segment record is
found, the candidate fails its checks, and the candidate contains a
separator, the trace is exactly the candidate followed by the single
substituted retry candidate: the retry then occurs exactly once, and no
further retries follow. -/
theorem c5_process_name_retry (env : Env) (exe : String) (st : RSt) :
    ∃ tr, (is_exeE env exe st).2.checks = st.checks ++ tr ∧
      (tr = [] ∨ tr = [exe] ∨
        (∃ kif k i, env.files = some kif ∧ findText kif = some k ∧
          find_last_of exe '/' = some i ∧
          tr = [exe, substrTo exe (i + 1) ++ k.p_comm] ∧
          (checkCandV env k exe).getD "" = "")) ∧
      (find_last_of exe '/' = none → tr = [] ∨ tr = [exe]) ∧
      (∀ kif k i, env.kvmOk = true → env.files = some kif →
        findText kif = some k → (checkCandV env k exe).getD "" = "" →
        find_last_of exe '/' = some i →
        tr = [exe, substrTo exe (i + 1) ++ k.p_comm]) := by
  unfold is_exeE
  split
  · rename_i hk0
    exact ⟨[], by simp, Or.inl rfl, fun _ => Or.inl rfl,
      fun kif k i hk _ _ _ _ => by rw [hk] at hk0; cases hk0⟩
  · split
    · rename_i heq0
      exact ⟨[], by simp, Or.inl rfl, fun _ => Or.inl rfl,
        fun kif k i _ hf _ _ _ => by rw [heq0] at hf; cases hf⟩
    · rename_i kif heq
      split
      · rename_i hft0
        refine ⟨[], by simp, Or.inl rfl, fun _ => Or.inl rfl,
          fun kif2 k2 i2 _ hf hft2 _ _ => ?_⟩
        rw [heq] at hf
        injection hf with h2
        rw [← h2] at hft2
        rw [hft0] at hft2
        cases hft2
      · rename_i k hft
        simp only [checkCandE_fst]
        split
        · rename_i hgd
          refine ⟨[exe], by rw [checkCandE_checks], Or.inr (Or.inl rfl),
            fun _ => Or.inr rfl, fun kif2 k2 i2 _ hf hft2 hgd2 _ => ?_⟩
          rw [heq] at hf
          injection hf with h2
          rw [← h2] at hft2
          rw [hft] at hft2
          injection hft2 with h3
          rw [← h3] at hgd2
          exact absurd hgd2 hgd
        · rename_i hgd
          split
          · rename_i hl0
            refine ⟨[exe], by rw [checkCandE_checks], Or.inr (Or.inl rfl),
              fun _ => Or.inr rfl, fun kif2 k2 i2 _ _ _ _ hlast2 => ?_⟩
            rw [hl0] at hlast2
            cases hlast2
          · rename_i i hlast
            refine ⟨[exe, substrTo exe (i + 1) ++ k.p_comm], ?_, ?_, ?_, ?_⟩
            · rw [checkCandE_checks, checkCandE_checks]
              simp
            · exact Or.inr (Or.inr ⟨kif, k, i, heq, hft, hlast, rfl,
                not_ne_iff.1 hgd⟩)
            · intro hnone
              rw [hnone] at hlast
              cases hlast
            · intro kif2 k2 i2 _ hf hft2 _ hlast2
              rw [heq] at hf
              injection hf with h2
              rw [← h2] at hft2
              rw [hft] at hft2
              injection hft2 with h3
              rw [hlast] at hlast2
              injection hlast2 with h4
              rw [← h3, ← h4]

/-- C5 witness: the retry pinned down concretely: on the failing
separator-containing candidate /d/x the positive direction of the theorem
forces the check trace to be exactly the candidate followed by the single
retry candidate /d/app. -/
theorem c5_witness :
    (is_exeE envSub "/d/x" ⟨9, [], []⟩).2.checks = ["/d/x", "/d/app"] := by
  obtain ⟨tr, htr, -, -, hpos⟩ :=
    c5_process_name_retry envSub "/d/x" ⟨9, [], []⟩
  have h2 := hpos [kfApp] kfApp 2 rfl rfl rfl (by decide) (by decide)
  rw [htr, h2]
  decide

/-- C6: on exhaustion of the first classification pass without a verified
hit, the resolver re-derives argv0 from the underscore variable when it is
non-empty and restarts classification with that value, carrying the retried
flag forward; the restart happens exactly once, so if the restarted pass
also fails the call returns empty. -/
theorem c6_underscore_restart (env : Env) (a0 : String) (rest : List String)
    (st : RSt) (u : String)
    (hk : env.kvmOk = true)
    (hargv : env.argv = some (a0 :: rest))
    (hfail : a0 = "" ∨ (classifyPassV env a0 false).1 = "")
    (hu : env.getenvStr "_" = u) (hune : u ≠ "") :
    (resolveRawE env st).1 =
      (classifyPassV env u
        (if a0 = "" then false else (classifyPassV env a0 false).2)).1 ∧
    ((classifyPassV env u
        (if a0 = "" then false else (classifyPassV env a0 false).2)).1 = "" →
      (resolveRawE env st).1 = "") := by
  have hmain : (resolveRawE env st).1 =
      (classifyPassV env u
        (if a0 = "" then false else (classifyPassV env a0 false).2)).1 := by
    unfold resolveRawE
    rw [hargv]
    rcases hfail with ha | hcl
    · subst ha
      simp [hk, hu, hune, classifyPassE_fst]
    · by_cases ha : a0 = ""
      · subst ha
        simp [hk, hu, hune, classifyPassE_fst]
      · have he1 : (classifyPassE env a0 false st).1 = "" := by
          rw [classifyPassE_fst]
          exact hcl
        have he2 : (classifyPassE env a0 false st).2.1 =
            (classifyPassV env a0 false).2 :=
          classifyPassE_flag env a0 false st
        simp [hk, ha, he1, he2, hu, hune, classifyPassE_fst]
  exact ⟨hmain, fun h => hmain.trans h⟩

/-- C6 witness: with a bare never-verifying argv0 and the underscore
variable holding /tmp/app, the restart resolves through the underscore
value. -/
theorem c6_witness :
    (resolveRawE envUnd ⟨9, [], []⟩).1 =
      (classifyPassV envUnd "/tmp/app"
        (if ("app" : String) = "" then false
         else (classifyPassV envUnd "app" false).2)).1 ∧
    ((classifyPassV envUnd "/tmp/app"
        (if ("app" : String) = "" then false
         else (classifyPassV envUnd "app" false).2)).1 = "" →
      (resolveRawE envUnd ⟨9, [], []⟩).1 = "") :=
  c6_underscore_restart envUnd "app" [] ⟨9, [], []⟩ "/tmp/app" (by decide) rfl
    (Or.inr (by decide)) (by decide) (by decide)

/-- C7: when every primitive failure leaves a non-zero errno and the errno
cell is non-zero on entry, the routine clears errno to zero exactly on
success, and a failed call returns the empty string with a non-zero errno
(the value left by the most recent failing primitive); the routine is a
total function and never aborts. -/
theorem c7_errno_discipline (env : Env) (st : RSt)
    (hg : GoodCodes env) (h0 : st.errno ≠ 0) :
    ((GetExecutableDirectoryE env st).1 ≠ "" →
      (GetExecutableDirectoryE env st).2.errno = 0) ∧
    ((GetExecutableDirectoryE env st).1 = "" →
      (GetExecutableDirectoryE env st).2.errno ≠ 0) := by
  have herr := resolveRawE_errno env st hg h0
  simp only [GetExecutableDirectoryE]
  split
  · rename_i hne
    constructor
    · intro _
      rfl
    · intro hc
      exact absurd ((dirTrunc_empty_iff _).1 hc) hne
  · rename_i hne
    have hp : (resolveRawE env st).1 = "" := not_ne_iff.1 hne
    constructor
    · intro hcne
      exact absurd ((dirTrunc_empty_iff _).2 hp) hcne
    · intro _
      exact herr

/-- C7 witness: the PWD scenario succeeds, so errno is cleared to zero. -/
theorem c7_witness :
    (GetExecutableDirectoryE envPWD ⟨9, [], []⟩).2.errno = 0 :=
  (c7_errno_discipline envPWD ⟨9, [], []⟩
    ⟨by decide, by decide, by decide, by decide,
      fun p => by simp [envPWD], fun p => by simp [envPWD]⟩
    (by decide)).1 (by decide)

/-- C8: the resolution result does not depend on the threaded call state, so
two successive calls in the same environment, the second starting from the
final state of the first, return identical strings. -/
theorem c8_idempotent (env : Env) (st : RSt) :
    (GetExecutableDirectoryE env (GetExecutableDirectoryE env st).2).1 =
      (GetExecutableDirectoryE env st).1 ∧
    (GetExecutableDirectoryE env st).1 = GetExecutableDirectory env := by
  rw [GetExecutableDirectoryE_fst, GetExecutableDirectoryE_fst]
  exact ⟨rfl, rfl⟩

/-- C9: the retry and fallback control flow is bounded: every call of the
(total) resolver invokes the verifier at most twice the per-pass bound,
where one classification pass is bounded by two candidates per PATH field,
two per fallback field and three more for the absolute and PWD/cwd
candidates; each backward jump is guarded so no stage runs more than
twice. -/
theorem c9_bounded_retries (env : Env) (st : RSt) :
    ((GetExecutableDirectoryE env st).2.calls).length ≤
      st.calls.length + 2 * (passCallBound env + 2) := by
  have h := resolveRawE_calls_len env st
  simp only [GetExecutableDirectoryE]
  split
  · simpa using h
  · simpa using h

/-- C10: the verifier scans only the leading run of records with negative fd
numbers: whenever a record with non-negative fd number precedes every
text-segment record, the scan stops there, the text-segment identity is
never found, and the verifier returns the empty string without performing
any filesystem check. -/
theorem c10_leading_negative_scan (env : Env) (exe : String) (st : RSt)
    (pre : List KFile) (r : KFile) (rest : List KFile)
    (hf : env.files = some (pre ++ r :: rest))
    (hpre : ∀ q ∈ pre, q.fd_fd ≠ KERN_FILE_TEXT)
    (hr : 0 ≤ r.fd_fd) :
    (is_exeE env exe st).1 = "" ∧
    (is_exeE env exe st).2.checks = st.checks := by
  have hft := findText_stops pre r rest hpre hr
  unfold is_exeE
  split
  · exact ⟨rfl, rfl⟩
  · split
    · exact ⟨rfl, rfl⟩
    · rename_i kif heq
      rw [hf] at heq
      injection heq with h2
      subst h2
      split
      · exact ⟨rfl, rfl⟩
      · rename_i k hk2
        rw [hft] at hk2
        cases hk2

/-- C10 witness: a record list opening with fd number 2 hides the
text-segment record, so even the genuine path /tmp/app is rejected with no
stat performed. -/
theorem c10_witness :
    (is_exeE envStop "/tmp/app" ⟨9, [], []⟩).1 = "" ∧
    (is_exeE envStop "/tmp/app" ⟨9, [], []⟩).2.checks = [] :=
  c10_leading_negative_scan envStop "/tmp/app" ⟨9, [], []⟩ []
    ⟨2, 5, 7, "app"⟩ [kfApp] rfl (fun q hq => absurd hq (List.not_mem_nil q))
    (by decide)

end ExeDir
